import Mathlib

/-!
# Verification of `urlencode` (bugabinga/urlencode)

Shallow embedding of `src/src/main.rs` and of the `percent-encoding` 1.0
crate it delegates to (the source cites
`https://docs.rs/percent-encoding/1.0.0/percent_encoding/index.html`).

Strings are modelled as Lean `String` (a list of Unicode scalar values,
matching Rust `&str`); bytes are `Nat` values below 256.
-/

namespace Urlencode

/-! ## Encode sets (percent-encoding 1.0)

Each set is the predicate "must this byte be percent-escaped?".
The five sets below transcribe the crate's definitions:
`SIMPLE_ENCODE_SET` escapes bytes `< 0x20` and `> 0x7E`; the others are
built from it with `define_encode_set!`, adding the listed characters.
-/

/-- `SIMPLE_ENCODE_SET` of percent-encoding 1.0: bytes below 0x20 or above 0x7E. -/
def SIMPLE_ENCODE_SET (b : Nat) : Bool :=
  decide (b < 0x20) || decide (0x7E < b)

/-- `QUERY_ENCODE_SET`: simple set plus space (32), quote (34), hash (35),
less-than (60), greater-than (62). -/
def QUERY_ENCODE_SET (b : Nat) : Bool :=
  SIMPLE_ENCODE_SET b || decide (b = 32) || decide (b = 34) || decide (b = 35) ||
    decide (b = 60) || decide (b = 62)

/-- `DEFAULT_ENCODE_SET`: query set plus backtick (96), question mark (63),
left brace (123), right brace (125). -/
def DEFAULT_ENCODE_SET (b : Nat) : Bool :=
  QUERY_ENCODE_SET b || decide (b = 96) || decide (b = 63) || decide (b = 123) ||
    decide (b = 125)

/-- `PATH_SEGMENT_ENCODE_SET`: default set plus percent (37) and slash (47). -/
def PATH_SEGMENT_ENCODE_SET (b : Nat) : Bool :=
  DEFAULT_ENCODE_SET b || decide (b = 37) || decide (b = 47)

/-- `USERINFO_ENCODE_SET`: default set plus slash (47), colon (58),
semicolon (59), equals (61), at (64), left bracket (91), backslash (92),
right bracket (93), caret (94), pipe (124). -/
def USERINFO_ENCODE_SET (b : Nat) : Bool :=
  DEFAULT_ENCODE_SET b || decide (b = 47) || decide (b = 58) || decide (b = 59) ||
    decide (b = 61) || decide (b = 64) || decide (b = 91) || decide (b = 92) ||
    decide (b = 93) || decide (b = 94) || decide (b = 124)

/-! ## Hex digits -/

/-- Uppercase hexadecimal digit for `d < 16`, as the crate's digit table
`0123456789ABCDEF` (byte values). -/
def hexUpperDigit (d : Nat) : Nat :=
  if d < 10 then 48 + d else 55 + d

/-- Is this byte an uppercase hexadecimal digit (`0`–`9` or `A`–`F`)? -/
def isUpperHexDigit (c : Nat) : Bool :=
  (decide (48 ≤ c) && decide (c ≤ 57)) || (decide (65 ≤ c) && decide (c ≤ 70))

/-- Value of a hexadecimal digit byte, case insensitive, as Rust
`char::to_digit(16)` used by `percent_decode`. -/
def hexDigitVal (c : Nat) : Option Nat :=
  if 48 ≤ c ∧ c ≤ 57 then some (c - 48)
  else if 65 ≤ c ∧ c ≤ 70 then some (c - 65 + 10)
  else if 97 ≤ c ∧ c ≤ 102 then some (c - 97 + 10)
  else none

/-! ## UTF-8 encoding (Rust `str::as_bytes` of the scalar values) -/

/-- UTF-8 bytes of a single Unicode scalar value `n` (standard encoding,
as Rust `char::encode_utf8`). -/
def utf8EncodeChar (n : Nat) : List Nat :=
  if n < 0x80 then [n]
  else if n < 0x800 then [0xC0 + n / 64, 0x80 + n % 64]
  else if n < 0x10000 then [0xE0 + n / 4096, 0x80 + n / 64 % 64, 0x80 + n % 64]
  else [0xF0 + n / 262144, 0x80 + n / 4096 % 64, 0x80 + n / 64 % 64, 0x80 + n % 64]

/-- UTF-8 byte sequence of a list of characters (Rust `str::as_bytes`). -/
def utf8Bytes : List Char → List Nat
  | [] => []
  | c :: s => utf8EncodeChar c.toNat ++ utf8Bytes s

/-! ## Percent-encoding (crate function `utf8_percent_encode`) -/

/-- Encoding of one byte: `%` (37) plus two uppercase hex digits when the
set contains the byte, the byte itself otherwise. -/
def percentEncodeByte (set : Nat → Bool) (b : Nat) : List Nat :=
  if set b then [37, hexUpperDigit (b / 16), hexUpperDigit (b % 16)] else [b]

/-- Byte-level percent encoding: each input byte in order, escaped iff the
set contains it.  This is exactly the byte sequence the crate's
`PercentEncode` iterator yields. -/
def percentEncode (set : Nat → Bool) : List Nat → List Nat
  | [] => []
  | b :: bs => percentEncodeByte set b ++ percentEncode set bs

/-! ## Percent-decoding (crate function `percent_decode`) -/

/-- Byte-level percent decoding: `%` (37) followed by two hex digits becomes
the byte they denote (consuming those two digits, the crate's
`after_percent_sign`); a `%` not followed by two hex digits is passed
through literally, and scanning resumes at the byte after the `%`. -/
def percentDecode : List Nat → List Nat
  | [] => []
  | b :: rest =>
    if b = 37 then
      match rest with
      | h :: l :: rest2 =>
        match hexDigitVal h, hexDigitVal l with
        | some hv, some lv => (hv * 16 + lv) :: percentDecode rest2
        | _, _ => 37 :: percentDecode (h :: l :: rest2)
      | [x] => 37 :: percentDecode [x]
      | [] => [37]
    else b :: percentDecode rest
  termination_by structural bs => bs

/-! ## UTF-8 validation and decoding (Rust `str::from_utf8` /
`String::from_utf8_lossy`, used by `decode_utf8` / `decode_utf8_lossy`) -/

/-- Is `b` a UTF-8 continuation byte (0x80–0xBF)? -/
def contByte (b : Nat) : Bool := decide (0x80 ≤ b) && decide (b ≤ 0xBF)

/-- Allowed second byte of a three-byte sequence with lead `b` (rejects
overlong encodings for lead 0xE0 and surrogates for lead 0xED). -/
def valid3Second (b b2 : Nat) : Bool :=
  if b = 0xE0 then decide (0xA0 ≤ b2) && decide (b2 ≤ 0xBF)
  else if b = 0xED then decide (0x80 ≤ b2) && decide (b2 ≤ 0x9F)
  else contByte b2

/-- Allowed second byte of a four-byte sequence with lead `b` (rejects
overlong encodings for lead 0xF0 and values above 0x10FFFF for lead 0xF4). -/
def valid4Second (b b2 : Nat) : Bool :=
  if b = 0xF0 then decide (0x90 ≤ b2) && decide (b2 ≤ 0xBF)
  else if b = 0xF4 then decide (0x80 ≤ b2) && decide (b2 ≤ 0x8F)
  else contByte b2

/-- One step of UTF-8 decoding at lead byte `b` with following bytes `rest`.
Returns the decoded scalar value (or `none` on an invalid or incomplete
sequence) and how many bytes of `rest` were consumed, following Rust's
validator: on error, only the maximal valid prefix of the sequence is
consumed (`error_len` semantics of `Utf8Error`); an incomplete sequence at
end of input consumes its whole tail. -/
def utf8Step (b : Nat) (rest : List Nat) : Option Nat × Nat :=
  if b < 0x80 then (some b, 0)
  else if b < 0xC2 then (none, 0)
  else if b ≤ 0xDF then
    match rest with
    | [] => (none, 0)
    | b2 :: _ =>
      if contByte b2 then (some ((b - 0xC0) * 64 + (b2 - 0x80)), 1) else (none, 0)
  else if b ≤ 0xEF then
    match rest with
    | [] => (none, 0)
    | [b2] => if valid3Second b b2 then (none, 1) else (none, 0)
    | b2 :: b3 :: _ =>
      if valid3Second b b2 then
        if contByte b3 then
          (some ((b - 0xE0) * 4096 + (b2 - 0x80) * 64 + (b3 - 0x80)), 2)
        else (none, 1)
      else (none, 0)
  else if b ≤ 0xF4 then
    match rest with
    | [] => (none, 0)
    | [b2] => if valid4Second b b2 then (none, 1) else (none, 0)
    | [b2, b3] =>
      if valid4Second b b2 then
        if contByte b3 then (none, 2) else (none, 1)
      else (none, 0)
    | b2 :: b3 :: b4 :: _ =>
      if valid4Second b b2 then
        if contByte b3 then
          if contByte b4 then
            (some ((b - 0xF0) * 262144 + (b2 - 0x80) * 4096 + (b3 - 0x80) * 64 + (b4 - 0x80)), 3)
          else (none, 2)
        else (none, 1)
      else (none, 0)
  else (none, 0)

/-- Lossy UTF-8 decoding to scalar values: each invalid subsequence becomes
one replacement character U+FFFD (Rust `String::from_utf8_lossy`). -/
def utf8DecodeLossyAux : List Nat → List Nat
  | [] => []
  | b :: rest =>
    match utf8Step b rest with
    | (some cp, k) => cp :: utf8DecodeLossyAux (rest.drop k)
    | (none, k) => 0xFFFD :: utf8DecodeLossyAux (rest.drop k)
  termination_by bs => bs.length
  decreasing_by
    all_goals simp only [List.length_drop, List.length_cons]; omega

/-- Strict UTF-8 decoding to scalar values: fails on any invalid byte
sequence (Rust `str::from_utf8`). -/
def utf8DecodeStrictAux : List Nat → Option (List Nat)
  | [] => some []
  | b :: rest =>
    match utf8Step b rest with
    | (some cp, k) => (utf8DecodeStrictAux (rest.drop k)).map (cp :: ·)
    | (none, _) => none
  termination_by bs => bs.length
  decreasing_by
    all_goals simp only [List.length_drop, List.length_cons]; omega

/-! ## String-level operations of `main.rs` -/

/-- `encode` of `src/src/main.rs` (lines 131–138): percent-encode the UTF-8
bytes of `line` with `encode_set` and emit the result as text.  All encode
sets used by the program escape every byte above 0x7E, so the produced bytes
are ASCII and the output text is their character-wise reading. -/
def encode (encode_set : Nat → Bool) (line : String) : String :=
  ⟨(percentEncode encode_set (utf8Bytes line.data)).map Char.ofNat⟩

/-- Lossy decode path of `decode` in `src/src/main.rs` (lines 110–129):
percent-decode the line's bytes, then interpret them as UTF-8, replacing
invalid sequences by U+FFFD. -/
def decodeLossyStr (line : String) : String :=
  ⟨(utf8DecodeLossyAux (percentDecode (utf8Bytes line.data))).map Char.ofNat⟩

/-- Strict decode path of `decode` in `src/src/main.rs`: percent-decode the
line's bytes, then interpret them as UTF-8, failing (`none`, the crate's
invalid-UTF-8 error) when they are not valid UTF-8. -/
def decodeStrictStr (line : String) : Option String :=
  (utf8DecodeStrictAux (percentDecode (utf8Bytes line.data))).map
    fun l => ⟨l.map Char.ofNat⟩

/-- Command-line flags of the program relevant to one transform:
`--decode`, `--strict-decode`, and the value given to `--encode-set`
(`none` when the flag is absent). -/
structure Args where
  decode : Bool
  strictDecode : Bool
  encodeSetArg : Option String

/-- The value `arg_matches.value_of("encode-set")` yields: clap substitutes
the `default_value` string `"default"` when the flag is absent. -/
def encodeSetValue (a : Option String) : String := a.getD "default"

/-- The encode set chosen by name in `transform_line`; `none` models the
aborting arm for an unknown set name (unreachable through clap's
`possible_values`). -/
def namedSet : String → Option (Nat → Bool)
  | "default" => some DEFAULT_ENCODE_SET
  | "path" => some PATH_SEGMENT_ENCODE_SET
  | "query" => some QUERY_ENCODE_SET
  | "simple" => some SIMPLE_ENCODE_SET
  | "userinfo" => some USERINFO_ENCODE_SET
  | _ => none

/-- Result of transforming one line: the output text, the strict decoder's
invalid-UTF-8 error, or the unknown-encode-set panic. -/
inductive TransformResult where
  | ok (out : String)
  | invalidUtf8
  | unknownSet
  deriving DecidableEq

/-- `transform_line` of `src/src/main.rs` (lines 83–108): decode mode is
active when either `--decode` or `--strict-decode` is present; the decode is
lossy unless `--strict-decode` is present; otherwise the encoder runs with
the set named by the `--encode-set` value. -/
def transform_line (args : Args) (line : String) : TransformResult :=
  let decode_mode := args.decode || args.strictDecode
  let lossy := !args.strictDecode
  if decode_mode then
    if lossy then .ok (decodeLossyStr line)
    else
      match decodeStrictStr line with
      | some t => .ok t
      | none => .invalidUtf8
  else
    match namedSet (encodeSetValue args.encodeSetArg) with
    | some set => .ok (encode set line)
    | none => .unknownSet

/-! ## Line handling of `run` (`src/src/main.rs` lines 62–81) -/

/-- Rust `char::is_whitespace`: the Unicode `White_Space` property. -/
def isRustWhitespace (c : Char) : Bool :=
  decide (c.toNat = 0x20) || (decide (0x09 ≤ c.toNat) && decide (c.toNat ≤ 0x0D)) ||
    decide (c.toNat = 0x85) || decide (c.toNat = 0xA0) || decide (c.toNat = 0x1680) ||
    (decide (0x2000 ≤ c.toNat) && decide (c.toNat ≤ 0x200A)) ||
    decide (c.toNat = 0x2028) || decide (c.toNat = 0x2029) ||
    decide (c.toNat = 0x202F) || decide (c.toNat = 0x205F) || decide (c.toNat = 0x3000)

/-- Rust `str::trim_end`: remove all trailing whitespace characters. -/
def trimEnd (s : String) : String :=
  ⟨(s.data.reverse.dropWhile isRustWhitespace).reverse⟩

/-- `run`'s stdin loop (lines 73–78): each line read from standard input is
passed to `transform_line` after `buf.trim_end()`. -/
def processStdinLine (args : Args) (line : String) : TransformResult :=
  transform_line args (trimEnd line)

/-- `run`'s positional-argument path (lines 68–71): the `INPUT` value is
passed to `transform_line` exactly as given. -/
def processInputArg (args : Args) (input : String) : TransformResult :=
  transform_line args input

/-- Predicate on a byte list: every occurrence of `%` (37) starts a `%HH`
triple with two hex digits. -/
def escOK : List Nat → Bool
  | [] => true
  | b :: rest =>
    if b = 37 then
      match rest with
      | h :: l :: rest2 =>
        (hexDigitVal h).isSome && (hexDigitVal l).isSome && escOK rest2
      | _ => false
    else escOK rest
  termination_by structural bs => bs

/-! ## Lemmas: hexadecimal digits -/

theorem hexDigitVal_hexUpperDigit (d : Nat) (h : d < 16) :
    hexDigitVal (hexUpperDigit d) = some d := by
  unfold hexDigitVal hexUpperDigit
  split_ifs <;> simp_all <;> omega

theorem hexUpperDigit_lt (d : Nat) (h : d < 16) : hexUpperDigit d < 0x80 := by
  unfold hexUpperDigit; split_ifs <;> omega

theorem hexUpperDigit_ne_37 (d : Nat) : hexUpperDigit d ≠ 37 := by
  unfold hexUpperDigit; split_ifs <;> omega

/-! ## Lemmas: percent decoding -/

theorem percentDecode_cons_ne (b : Nat) (rest : List Nat) (h : b ≠ 37) :
    percentDecode (b :: rest) = b :: percentDecode rest := by
  rw [percentDecode.eq_def]
  simp only
  rw [if_neg h]

theorem percentDecode_no37 (bs : List Nat) (h : ∀ b ∈ bs, b ≠ 37) :
    percentDecode bs = bs := by
  induction bs with
  | nil => rfl
  | cons b rest ih =>
    rw [percentDecode_cons_ne b rest (h b (List.mem_cons_self b rest)),
      ih fun x hx => h x (List.mem_cons_of_mem b hx)]

theorem percentDecode_encode (set : Nat → Bool) (bs : List Nat)
    (hlt : ∀ b ∈ bs, b < 256)
    (h37 : set 37 = true ∨ ∀ b ∈ bs, b ≠ 37) :
    percentDecode (percentEncode set bs) = bs := by
  induction bs with
  | nil => rfl
  | cons b rest ih =>
    have hb : b < 256 := hlt b (List.mem_cons_self b rest)
    have hrest : ∀ x ∈ rest, x < 256 := fun x hx => hlt x (List.mem_cons_of_mem b hx)
    have h37r : set 37 = true ∨ ∀ x ∈ rest, x ≠ 37 := by
      rcases h37 with h | h
      · exact Or.inl h
      · exact Or.inr fun x hx => h x (List.mem_cons_of_mem b hx)
    rw [percentEncode]
    by_cases hset : set b = true
    · rw [percentEncodeByte, if_pos hset]
      have h1 : hexDigitVal (hexUpperDigit (b / 16)) = some (b / 16) :=
        hexDigitVal_hexUpperDigit _ (by omega)
      have h2 : hexDigitVal (hexUpperDigit (b % 16)) = some (b % 16) :=
        hexDigitVal_hexUpperDigit _ (by omega)
      conv_lhs => rw [List.cons_append, List.cons_append, List.cons_append,
        List.nil_append, percentDecode.eq_def]
      simp only [if_true]
      rw [h1, h2]
      simp only
      rw [ih hrest h37r]
      congr 1
      omega
    · have hbne : b ≠ 37 := by
        rcases h37 with h | h
        · intro he; rw [he] at hset; exact hset h
        · exact h b (List.mem_cons_self b rest)
      rw [percentEncodeByte, if_neg hset, List.cons_append, List.nil_append,
        percentDecode_cons_ne b _ hbne, ih hrest h37r]

/-! ## Lemmas: UTF-8 decoding of encoded scalar values -/

theorem contByte_true (b : Nat) (h1 : 0x80 ≤ b) (h2 : b ≤ 0xBF) : contByte b = true := by
  unfold contByte
  simp only [Bool.and_eq_true, decide_eq_true_eq]
  omega

theorem valid3Second_enc (n : Nat) (h1 : 0x800 ≤ n) (h2 : n < 0x10000)
    (hs : n < 0xD800 ∨ 0xDFFF < n) :
    valid3Second (0xE0 + n / 4096) (0x80 + n / 64 % 64) = true := by
  unfold valid3Second contByte
  split_ifs with hE0 hED <;>
    simp only [Bool.and_eq_true, decide_eq_true_eq] <;> omega

theorem valid4Second_enc (n : Nat) (h1 : 0x10000 ≤ n) (h2 : n < 0x110000) :
    valid4Second (0xF0 + n / 262144) (0x80 + n / 4096 % 64) = true := by
  unfold valid4Second contByte
  split_ifs with hF0 hF4 <;>
    simp only [Bool.and_eq_true, decide_eq_true_eq] <;> omega

theorem utf8Step_enc1 (n : Nat) (h : n < 0x80) (rest : List Nat) :
    utf8Step n rest = (some n, 0) := by
  unfold utf8Step
  rw [if_pos h]

theorem utf8Step_enc2 (n : Nat) (h1 : 0x80 ≤ n) (h2 : n < 0x800) (rest : List Nat) :
    utf8Step (0xC0 + n / 64) ((0x80 + n % 64) :: rest) = (some n, 1) := by
  unfold utf8Step
  rw [if_neg (by omega), if_neg (by omega), if_pos (by omega)]
  simp only
  rw [if_pos (contByte_true _ (by omega) (by omega))]
  have : (0xC0 + n / 64 - 0xC0) * 64 + (0x80 + n % 64 - 0x80) = n := by omega
  rw [this]

theorem utf8Step_enc3 (n : Nat) (h1 : 0x800 ≤ n) (h2 : n < 0x10000)
    (hs : n < 0xD800 ∨ 0xDFFF < n) (rest : List Nat) :
    utf8Step (0xE0 + n / 4096)
      ((0x80 + n / 64 % 64) :: (0x80 + n % 64) :: rest) = (some n, 2) := by
  unfold utf8Step
  rw [if_neg (by omega), if_neg (by omega), if_neg (by omega), if_pos (by omega)]
  simp only
  rw [if_pos (valid3Second_enc n h1 h2 hs),
    if_pos (contByte_true _ (by omega) (by omega))]
  have : (0xE0 + n / 4096 - 0xE0) * 4096 + (0x80 + n / 64 % 64 - 0x80) * 64 +
      (0x80 + n % 64 - 0x80) = n := by omega
  rw [this]

theorem utf8Step_enc4 (n : Nat) (h1 : 0x10000 ≤ n) (h2 : n < 0x110000) (rest : List Nat) :
    utf8Step (0xF0 + n / 262144)
      ((0x80 + n / 4096 % 64) :: (0x80 + n / 64 % 64) :: (0x80 + n % 64) :: rest) =
      (some n, 3) := by
  unfold utf8Step
  rw [if_neg (by omega), if_neg (by omega), if_neg (by omega), if_neg (by omega),
    if_pos (by omega)]
  simp only
  rw [if_pos (valid4Second_enc n h1 h2),
    if_pos (contByte_true _ (by omega) (by omega)),
    if_pos (contByte_true _ (by omega) (by omega))]
  have : (0xF0 + n / 262144 - 0xF0) * 262144 + (0x80 + n / 4096 % 64 - 0x80) * 4096 +
      (0x80 + n / 64 % 64 - 0x80) * 64 + (0x80 + n % 64 - 0x80) = n := by omega
  rw [this]

theorem utf8DecodeLossyAux_encChar (n : Nat) (hv : n.isValidChar) (rest : List Nat) :
    utf8DecodeLossyAux (utf8EncodeChar n ++ rest) = n :: utf8DecodeLossyAux rest := by
  have hlt : n < 0x110000 := by rcases hv with h | ⟨_, h⟩ <;> omega
  have hs : n < 0xD800 ∨ 0xDFFF < n := by rcases hv with h | ⟨h, _⟩ <;> omega
  unfold utf8EncodeChar
  by_cases hc1 : n < 0x80
  · rw [if_pos hc1]
    rw [List.cons_append, List.nil_append, utf8DecodeLossyAux, utf8Step_enc1 n hc1]
    simp only [List.drop_zero]
  · rw [if_neg hc1]
    by_cases hc2 : n < 0x800
    · rw [if_pos hc2]
      rw [List.cons_append, List.cons_append, List.nil_append, utf8DecodeLossyAux,
        utf8Step_enc2 n (by omega) hc2]
      simp only [List.drop_succ_cons, List.drop_zero]
    · rw [if_neg hc2]
      by_cases hc3 : n < 0x10000
      · rw [if_pos hc3]
        rw [List.cons_append, List.cons_append, List.cons_append, List.nil_append,
          utf8DecodeLossyAux, utf8Step_enc3 n (by omega) hc3 hs]
        simp only [List.drop_succ_cons, List.drop_zero]
      · rw [if_neg hc3]
        rw [List.cons_append, List.cons_append, List.cons_append, List.cons_append,
          List.nil_append, utf8DecodeLossyAux, utf8Step_enc4 n (by omega) hlt]
        simp only [List.drop_succ_cons, List.drop_zero]

theorem utf8DecodeStrictAux_encChar (n : Nat) (hv : n.isValidChar) (rest : List Nat) :
    utf8DecodeStrictAux (utf8EncodeChar n ++ rest) =
      (utf8DecodeStrictAux rest).map (n :: ·) := by
  have hlt : n < 0x110000 := by rcases hv with h | ⟨_, h⟩ <;> omega
  have hs : n < 0xD800 ∨ 0xDFFF < n := by rcases hv with h | ⟨h, _⟩ <;> omega
  unfold utf8EncodeChar
  by_cases hc1 : n < 0x80
  · rw [if_pos hc1]
    rw [List.cons_append, List.nil_append, utf8DecodeStrictAux, utf8Step_enc1 n hc1]
    simp only [List.drop_zero]
  · rw [if_neg hc1]
    by_cases hc2 : n < 0x800
    · rw [if_pos hc2]
      rw [List.cons_append, List.cons_append, List.nil_append, utf8DecodeStrictAux,
        utf8Step_enc2 n (by omega) hc2]
      simp only [List.drop_succ_cons, List.drop_zero]
    · rw [if_neg hc2]
      by_cases hc3 : n < 0x10000
      · rw [if_pos hc3]
        rw [List.cons_append, List.cons_append, List.cons_append, List.nil_append,
          utf8DecodeStrictAux, utf8Step_enc3 n (by omega) hc3 hs]
        simp only [List.drop_succ_cons, List.drop_zero]
      · rw [if_neg hc3]
        rw [List.cons_append, List.cons_append, List.cons_append, List.cons_append,
          List.nil_append, utf8DecodeStrictAux, utf8Step_enc4 n (by omega) hlt]
        simp only [List.drop_succ_cons, List.drop_zero]

theorem utf8DecodeLossyAux_utf8Bytes (s : List Char) :
    utf8DecodeLossyAux (utf8Bytes s) = s.map Char.toNat := by
  induction s with
  | nil => rw [utf8Bytes, utf8DecodeLossyAux, List.map_nil]
  | cons c s ih =>
    rw [utf8Bytes, utf8DecodeLossyAux_encChar c.toNat c.valid, ih, List.map_cons]

theorem utf8DecodeStrictAux_utf8Bytes (s : List Char) :
    utf8DecodeStrictAux (utf8Bytes s) = some (s.map Char.toNat) := by
  induction s with
  | nil => rw [utf8Bytes, utf8DecodeStrictAux, List.map_nil]
  | cons c s ih =>
    rw [utf8Bytes, utf8DecodeStrictAux_encChar c.toNat c.valid, ih, List.map_cons]
    rfl

/-! ## Lemmas: byte ranges and character conversions -/

theorem utf8EncodeChar_lt_256 (n : Nat) (h : n < 0x110000) :
    ∀ b ∈ utf8EncodeChar n, b < 256 := by
  unfold utf8EncodeChar
  split_ifs <;> simp only [List.mem_cons, List.not_mem_nil, or_false] <;>
    rintro b (rfl | rfl | rfl | rfl) <;> omega

theorem utf8Bytes_lt_256 (s : List Char) : ∀ b ∈ utf8Bytes s, b < 256 := by
  induction s with
  | nil => intro b hb; rw [utf8Bytes] at hb; exact absurd hb (List.not_mem_nil b)
  | cons c s ih =>
    intro b hb
    rw [utf8Bytes] at hb
    rcases List.mem_append.mp hb with h | h
    · have hlt : c.toNat < 0x110000 := by
        show c.val.toNat < 0x110000
        rcases c.valid with h' | ⟨_, h'⟩ <;> omega
      exact utf8EncodeChar_lt_256 c.toNat hlt b h
    · exact ih b h

theorem percentEncode_lt_0x80 (set : Nat → Bool)
    (hset : ∀ b, set b = false → b < 0x80) (bs : List Nat)
    (hlt : ∀ b ∈ bs, b < 256) :
    ∀ b ∈ percentEncode set bs, b < 0x80 := by
  induction bs with
  | nil => intro b hb; rw [percentEncode] at hb; exact absurd hb (List.not_mem_nil b)
  | cons x rest ih =>
    intro b hb
    rw [percentEncode] at hb
    rcases List.mem_append.mp hb with h | h
    · rw [percentEncodeByte] at h
      by_cases hx : set x = true
      · rw [if_pos hx] at h
        have hx256 : x < 256 := hlt x (List.mem_cons_self x rest)
        simp only [List.mem_cons, List.not_mem_nil, or_false] at h
        rcases h with rfl | rfl | rfl
        · omega
        · exact hexUpperDigit_lt _ (by omega)
        · exact hexUpperDigit_lt _ (by omega)
      · rw [if_neg hx] at h
        simp only [List.mem_cons, List.not_mem_nil, or_false] at h
        subst h
        exact hset _ (Bool.not_eq_true _ ▸ hx)
    · exact ih (fun y hy => hlt y (List.mem_cons_of_mem x hy)) b h

theorem toNat_ofNat_valid (n : Nat) (h : n.isValidChar) : (Char.ofNat n).toNat = n := by
  rw [Char.ofNat, dif_pos h]
  rfl

theorem utf8Bytes_map_ofNat (bs : List Nat) (h : ∀ b ∈ bs, b < 0x80) :
    utf8Bytes (bs.map Char.ofNat) = bs := by
  induction bs with
  | nil => rw [List.map_nil, utf8Bytes]
  | cons b rest ih =>
    have hb : b < 0x80 := h b (List.mem_cons_self b rest)
    have hv : b.isValidChar := Or.inl (by omega)
    rw [List.map_cons, utf8Bytes, toNat_ofNat_valid b hv, utf8EncodeChar, if_pos hb,
      ih fun x hx => h x (List.mem_cons_of_mem b hx), List.cons_append, List.nil_append]

theorem percent_toNat : ('%' : Char).toNat = 37 := rfl

theorem utf8Bytes_no37 (s : List Char) (h : ∀ c ∈ s, c ≠ '%') :
    ∀ b ∈ utf8Bytes s, b ≠ 37 := by
  induction s with
  | nil => intro b hb; rw [utf8Bytes] at hb; exact absurd hb (List.not_mem_nil b)
  | cons c s ih =>
    intro b hb
    rw [utf8Bytes] at hb
    rcases List.mem_append.mp hb with hm | hm
    · have hcn : c.toNat ≠ 37 := by
        intro he
        apply h c (List.mem_cons_self c s)
        have := Char.ofNat_toNat c
        rw [he] at this
        exact this.symm
      revert hm
      unfold utf8EncodeChar
      split_ifs <;> simp only [List.mem_cons, List.not_mem_nil, or_false] <;>
        rintro (rfl | rfl | rfl | rfl) <;> omega
    · exact ih (fun x hx => h x (List.mem_cons_of_mem c hx)) b hm

/-! ## Lemmas: escape-triple well-formedness, trimming, misc -/

theorem map_ofNat_toNat (l : List Char) : (l.map Char.toNat).map Char.ofNat = l := by
  rw [List.map_map]
  simp only [Function.comp_def, Char.ofNat_toNat, List.map_id']

theorem isUpperHexDigit_hexUpperDigit (d : Nat) (h : d < 16) :
    isUpperHexDigit (hexUpperDigit d) = true := by
  unfold isUpperHexDigit hexUpperDigit
  split_ifs <;>
    simp only [Bool.or_eq_true, Bool.and_eq_true, decide_eq_true_eq] <;> omega

theorem escOK_cons_ne (b : Nat) (rest : List Nat) (h : b ≠ 37) :
    escOK (b :: rest) = escOK rest := by
  rw [escOK.eq_def]
  simp only
  rw [if_neg h]

theorem escOK_percentEncode (set : Nat → Bool) (bs : List Nat)
    (hlt : ∀ b ∈ bs, b < 256)
    (h37 : set 37 = true ∨ ∀ b ∈ bs, b ≠ 37) :
    escOK (percentEncode set bs) = true := by
  induction bs with
  | nil => rfl
  | cons b rest ih =>
    have hb : b < 256 := hlt b (List.mem_cons_self b rest)
    have hrest : ∀ x ∈ rest, x < 256 := fun x hx => hlt x (List.mem_cons_of_mem b hx)
    have h37r : set 37 = true ∨ ∀ x ∈ rest, x ≠ 37 := by
      rcases h37 with h | h
      · exact Or.inl h
      · exact Or.inr fun x hx => h x (List.mem_cons_of_mem b hx)
    rw [percentEncode]
    by_cases hset : set b = true
    · rw [percentEncodeByte, if_pos hset, List.cons_append, List.cons_append,
        List.cons_append, List.nil_append, escOK.eq_def]
      simp only [if_true]
      rw [hexDigitVal_hexUpperDigit _ (by omega), hexDigitVal_hexUpperDigit _ (by omega),
        ih hrest h37r]
      rfl
    · have hbne : b ≠ 37 := by
        rcases h37 with h | h
        · intro he; rw [he] at hset; exact hset h
        · exact h b (List.mem_cons_self b rest)
      rw [percentEncodeByte, if_neg hset, List.cons_append, List.nil_append,
        escOK_cons_ne b _ hbne]
      exact ih hrest h37r

theorem dropWhile_append_all (p : Char → Bool) (l1 l2 : List Char)
    (h : ∀ c ∈ l1, p c = true) :
    (l1 ++ l2).dropWhile p = l2.dropWhile p := by
  induction l1 with
  | nil => rw [List.nil_append]
  | cons c t ih =>
    rw [List.cons_append, List.dropWhile_cons, if_pos (h c (List.mem_cons_self c t))]
    exact ih fun x hx => h x (List.mem_cons_of_mem c hx)

theorem trimEnd_append_ws (s t : String)
    (h : ∀ c ∈ t.data, isRustWhitespace c = true) :
    trimEnd (s ++ t) = trimEnd s := by
  unfold trimEnd
  congr 1
  rw [String.data_append, List.reverse_append,
    dropWhile_append_all _ _ _ fun c hc => h c (List.mem_reverse.mp hc)]

/-! ## Lemmas: the five encode sets -/

theorem SIMPLE_false_lt (b : Nat) (h : SIMPLE_ENCODE_SET b = false) : b < 0x80 := by
  unfold SIMPLE_ENCODE_SET at h
  simp only [Bool.or_eq_false_iff, decide_eq_false_iff_not, not_lt] at h
  omega

theorem QUERY_false_lt (b : Nat) (h : QUERY_ENCODE_SET b = false) : b < 0x80 := by
  unfold QUERY_ENCODE_SET at h
  simp only [Bool.or_eq_false_iff] at h
  exact SIMPLE_false_lt b h.1.1.1.1.1

theorem DEFAULT_false_lt (b : Nat) (h : DEFAULT_ENCODE_SET b = false) : b < 0x80 := by
  unfold DEFAULT_ENCODE_SET at h
  simp only [Bool.or_eq_false_iff] at h
  exact QUERY_false_lt b h.1.1.1.1

theorem PATH_SEGMENT_false_lt (b : Nat) (h : PATH_SEGMENT_ENCODE_SET b = false) :
    b < 0x80 := by
  unfold PATH_SEGMENT_ENCODE_SET at h
  simp only [Bool.or_eq_false_iff] at h
  exact DEFAULT_false_lt b h.1.1

theorem USERINFO_false_lt (b : Nat) (h : USERINFO_ENCODE_SET b = false) : b < 0x80 := by
  unfold USERINFO_ENCODE_SET at h
  simp only [Bool.or_eq_false_iff] at h
  exact DEFAULT_false_lt b h.1.1.1.1.1.1.1.1.1.1

/-! ## The round-trip -/

theorem roundtrip_master (set : Nat → Bool)
    (hset : ∀ b, set b = false → b < 0x80) (s : String)
    (h37 : set 37 = true ∨ ∀ c ∈ s.data, c ≠ '%') :
    decodeLossyStr (encode set s) = s ∧ decodeStrictStr (encode set s) = some s := by
  have hbs := utf8Bytes_lt_256 s.data
  have hOut := percentEncode_lt_0x80 set hset (utf8Bytes s.data) hbs
  have h37' : set 37 = true ∨ ∀ b ∈ utf8Bytes s.data, b ≠ 37 := by
    rcases h37 with h | h
    · exact Or.inl h
    · exact Or.inr (utf8Bytes_no37 s.data h)
  have hdata : utf8Bytes ((percentEncode set (utf8Bytes s.data)).map Char.ofNat) =
      percentEncode set (utf8Bytes s.data) := utf8Bytes_map_ofNat _ hOut
  have hback : (s.data.map Char.toNat).map Char.ofNat = s.data := by
    rw [List.map_map]
    simp only [Function.comp_def, Char.ofNat_toNat, List.map_id']
  constructor
  · show (⟨(utf8DecodeLossyAux (percentDecode (utf8Bytes
        ((percentEncode set (utf8Bytes s.data)).map Char.ofNat)))).map Char.ofNat⟩ :
        String) = s
    rw [hdata, percentDecode_encode set _ hbs h37', utf8DecodeLossyAux_utf8Bytes, hback]
  · show (utf8DecodeStrictAux (percentDecode (utf8Bytes
        ((percentEncode set (utf8Bytes s.data)).map Char.ofNat)))).map
        (fun l => (⟨l.map Char.ofNat⟩ : String)) = some s
    rw [hdata, percentDecode_encode set _ hbs h37', utf8DecodeStrictAux_utf8Bytes]
    show some (⟨(s.data.map Char.toNat).map Char.ofNat⟩ : String) = some s
    rw [hback]

/-! ## Claims -/

/-- C1 (counterexample): the round-trip fails as stated.  For the input
`%41` and the `Default` encode set (which does not escape `%`), the encoder
returns `%41` unchanged and the decoder then collapses it to `A`, in both
lossy and strict mode. -/
theorem C1_counterexample :
    decodeLossyStr (encode DEFAULT_ENCODE_SET "%41") ≠ "%41" ∧
    decodeStrictStr (encode DEFAULT_ENCODE_SET "%41") ≠ some "%41" := by
  have he : encode DEFAULT_ENCODE_SET "%41" = "%41" := by decide
  have hl : decodeLossyStr "%41" = "A" := by
    unfold decodeLossyStr
    simp [percentDecode, hexDigitVal, utf8DecodeLossyAux, utf8Step, contByte,
      utf8Bytes, utf8EncodeChar]
  have hs : decodeStrictStr "%41" = some "A" := by
    unfold decodeStrictStr
    simp [percentDecode, hexDigitVal, utf8DecodeStrictAux, utf8Step, contByte,
      utf8Bytes, utf8EncodeChar]
  rw [he, hl, hs]
  constructor <;> decide

/-- C1 (amended): for every text `s` and every encode set used by the
program, decoding the encoder's output yields `s` again — in both lossy and
strict mode — provided the set escapes `%` (true exactly of `PathSegment`)
or `s` contains no `%` character. -/
theorem C1_roundtrip (s : String) (set : Nat → Bool)
    (hfive : set = DEFAULT_ENCODE_SET ∨ set = PATH_SEGMENT_ENCODE_SET ∨
      set = QUERY_ENCODE_SET ∨ set = SIMPLE_ENCODE_SET ∨ set = USERINFO_ENCODE_SET)
    (hp : set 37 = true ∨ ∀ c ∈ s.data, c ≠ '%') :
    decodeLossyStr (encode set s) = s ∧ decodeStrictStr (encode set s) = some s := by
  apply roundtrip_master set _ s hp
  rcases hfive with rfl | rfl | rfl | rfl | rfl
  exacts [DEFAULT_false_lt, PATH_SEGMENT_false_lt, QUERY_false_lt, SIMPLE_false_lt,
    USERINFO_false_lt]

/-- C1 (witness): the amended round-trip at the concrete input `a b/c%`
with the `PathSegment` encode set. -/
theorem C1_witness :
    decodeLossyStr (encode PATH_SEGMENT_ENCODE_SET "a b/c%") = "a b/c%" ∧
    decodeStrictStr (encode PATH_SEGMENT_ENCODE_SET "a b/c%") = some "a b/c%" :=
  C1_roundtrip "a b/c%" PATH_SEGMENT_ENCODE_SET (Or.inr (Or.inl rfl))
    (Or.inl (by decide))

/-- C2 (counterexample): `%` (byte 37) is not escaped by the `Default`,
`Query`, `Simple` or `Userinfo` encode set, and encoding the input `%` with
the `Default` set emits a raw `%` that does not start a `%HH` triple. -/
theorem C2_counterexample :
    DEFAULT_ENCODE_SET 37 = false ∧ QUERY_ENCODE_SET 37 = false ∧
    SIMPLE_ENCODE_SET 37 = false ∧ USERINFO_ENCODE_SET 37 = false ∧
    encode DEFAULT_ENCODE_SET "%" = "%" ∧
    escOK (percentEncode DEFAULT_ENCODE_SET (utf8Bytes "%".data)) = false := by
  refine ⟨by decide, by decide, by decide, by decide, by decide, ?_⟩
  show escOK (percentEncode DEFAULT_ENCODE_SET [37]) = false
  decide

/-- C2 (amended): every encode set of the program escapes all bytes in
0x00–0x1F, the byte 0x7F and all bytes 0x80–0xFF; the percent sign itself
is escaped by `PathSegment` but by none of the other four sets; and the
output of encoding with `PathSegment` never contains a raw `%` that is not
the start of a `%HH` escape triple. -/
theorem C2_escaping (b : Nat) (bs : List Nat) (hb : b ≤ 0xFF)
    (hbs : ∀ x ∈ bs, x < 256) :
    ((b < 0x20 ∨ b = 0x7F ∨ 0x80 ≤ b) →
      SIMPLE_ENCODE_SET b = true ∧ QUERY_ENCODE_SET b = true ∧
      DEFAULT_ENCODE_SET b = true ∧ PATH_SEGMENT_ENCODE_SET b = true ∧
      USERINFO_ENCODE_SET b = true) ∧
    PATH_SEGMENT_ENCODE_SET 37 = true ∧ DEFAULT_ENCODE_SET 37 = false ∧
    QUERY_ENCODE_SET 37 = false ∧ SIMPLE_ENCODE_SET 37 = false ∧
    USERINFO_ENCODE_SET 37 = false ∧
    escOK (percentEncode PATH_SEGMENT_ENCODE_SET bs) = true := by
  refine ⟨?_, by decide, by decide, by decide, by decide, by decide,
    escOK_percentEncode _ bs hbs (Or.inl (by decide))⟩
  intro hrange
  have hS : SIMPLE_ENCODE_SET b = true := by
    unfold SIMPLE_ENCODE_SET
    simp only [Bool.or_eq_true, decide_eq_true_eq]
    omega
  have hQ : QUERY_ENCODE_SET b = true := by
    unfold QUERY_ENCODE_SET; rw [hS]; rfl
  have hD : DEFAULT_ENCODE_SET b = true := by
    unfold DEFAULT_ENCODE_SET; rw [hQ]; rfl
  have hP : PATH_SEGMENT_ENCODE_SET b = true := by
    unfold PATH_SEGMENT_ENCODE_SET; rw [hD]; rfl
  have hU : USERINFO_ENCODE_SET b = true := by
    unfold USERINFO_ENCODE_SET; rw [hD]; rfl
  exact ⟨hS, hQ, hD, hP, hU⟩

/-- C2 (witness): the amended escaping facts at byte 0 and byte list
`[37]`. -/
theorem C2_witness :
    SIMPLE_ENCODE_SET 0 = true ∧
    escOK (percentEncode PATH_SEGMENT_ENCODE_SET [37]) = true :=
  ⟨((C2_escaping 0 [37] (by decide) (by decide)).1 (Or.inl (by decide))).1,
    (C2_escaping 0 [37] (by decide) (by decide)).2.2.2.2.2.2⟩

/-- C3 (counterexample): encoding `a b/c` with the `Default` set yields
`a%20b/c`, not the claimed `a%20b%2Fc` (the `Default` set does not escape
`/`), and encoding it with the `Simple` set yields `a b/c` unchanged, not
the claimed `a%20b/c` (the `Simple` set does not escape the space). -/
theorem C3_counterexample :
    encode DEFAULT_ENCODE_SET "a b/c" = "a%20b/c" ∧
    ("a%20b/c" : String) ≠ "a%20b%2Fc" ∧
    encode SIMPLE_ENCODE_SET "a b/c" = "a b/c" ∧
    ("a b/c" : String) ≠ "a%20b/c" := by
  refine ⟨by decide, by decide, by decide, by decide⟩

/-- C3 (amended): the exact literals produced for the input `a b/c`:
`a%20b/c` under `Default`, `a b/c` under `Simple`, and `a%20b%2Fc` (the
literal the claim expected of `Default`) under `PathSegment`. -/
theorem C3_literals :
    encode DEFAULT_ENCODE_SET "a b/c" = "a%20b/c" ∧
    encode SIMPLE_ENCODE_SET "a b/c" = "a b/c" ∧
    encode PATH_SEGMENT_ENCODE_SET "a b/c" = "a%20b%2Fc" := by
  refine ⟨by decide, by decide, by decide⟩

/-- C4: the bytes escaped by `Simple` are a subset of those escaped by
`Query`, which in turn is a subset of those escaped by each of
`PathSegment`, `Userinfo` and `Default`. -/
theorem C4_set_ordering (b : Nat) :
    (SIMPLE_ENCODE_SET b = true → QUERY_ENCODE_SET b = true) ∧
    (QUERY_ENCODE_SET b = true → DEFAULT_ENCODE_SET b = true) ∧
    (QUERY_ENCODE_SET b = true → PATH_SEGMENT_ENCODE_SET b = true) ∧
    (QUERY_ENCODE_SET b = true → USERINFO_ENCODE_SET b = true) := by
  have hQD : QUERY_ENCODE_SET b = true → DEFAULT_ENCODE_SET b = true := by
    intro h; unfold DEFAULT_ENCODE_SET; rw [h]; rfl
  refine ⟨?_, hQD, ?_, ?_⟩
  · intro h; unfold QUERY_ENCODE_SET; rw [h]; rfl
  · intro h; unfold PATH_SEGMENT_ENCODE_SET; rw [hQD h]; rfl
  · intro h; unfold USERINFO_ENCODE_SET; rw [hQD h]; rfl

/-- C4 (witness): the subset facts at the control byte 0, which all sets
escape. -/
theorem C4_witness : QUERY_ENCODE_SET 0 = true ∧ DEFAULT_ENCODE_SET 0 = true :=
  ⟨(C4_set_ordering 0).1 (by decide),
    (C4_set_ordering 0).2.1 ((C4_set_ordering 0).1 (by decide))⟩

/-- C5: decoding `%FF%FE` in strict mode fails with the invalid-UTF-8
decode error (no output is produced), while lossy decoding yields two
replacement characters U+FFFD. -/
theorem C5_strict_vs_lossy :
    decodeStrictStr "%FF%FE" = none ∧
    decodeLossyStr "%FF%FE" = "\uFFFD\uFFFD" := by
  constructor
  · unfold decodeStrictStr
    simp [percentDecode, hexDigitVal, utf8DecodeStrictAux, utf8Step, contByte,
      utf8Bytes, utf8EncodeChar]
  · unfold decodeLossyStr
    simp [percentDecode, hexDigitVal, utf8DecodeLossyAux, utf8Step, contByte,
      utf8Bytes, utf8EncodeChar]

/-- C6: a `%` not followed by two hex digits is passed through literally by
the percent decoder (which never fails), and in particular `100% done`
decodes to itself in both lossy and strict mode. -/
theorem C6_malformed_passthrough :
    (∀ h l rest, (hexDigitVal h = none ∨ hexDigitVal l = none) →
      percentDecode (37 :: h :: l :: rest) = 37 :: percentDecode (h :: l :: rest)) ∧
    (∀ x, percentDecode [37, x] = 37 :: percentDecode [x]) ∧
    percentDecode [37] = [37] ∧
    decodeLossyStr "100% done" = "100% done" ∧
    decodeStrictStr "100% done" = some "100% done" := by
  refine ⟨?_, ?_, by decide, ?_, ?_⟩
  · intro h l rest hd
    rw [percentDecode.eq_def]
    simp only [if_true]
    rcases hh : hexDigitVal h with _ | hv
    · simp only
    · rcases hl : hexDigitVal l with _ | lv
      · simp only
      · rcases hd with hn | hn
        · rw [hn] at hh; exact absurd hh (by simp)
        · rw [hn] at hl; exact absurd hl (by simp)
  · intro x
    rw [percentDecode.eq_def]
    simp only [if_true]
  · unfold decodeLossyStr
    simp [percentDecode, hexDigitVal, utf8DecodeLossyAux, utf8Step, contByte,
      utf8Bytes, utf8EncodeChar]
  · unfold decodeStrictStr
    simp [percentDecode, hexDigitVal, utf8DecodeStrictAux, utf8Step, contByte,
      utf8Bytes, utf8EncodeChar]

/-- C6 (witness): the passthrough equation at the concrete bytes
`% z z` (122 is not a hex digit). -/
theorem C6_witness :
    percentDecode [37, 122, 122] = 37 :: percentDecode [122, 122] :=
  C6_malformed_passthrough.1 122 122 [] (Or.inl (by decide))

/-- C7: the decoder runs iff `--decode` or `--strict-decode` is set; the
decode is strict iff `--strict-decode` is set; otherwise the encoder runs
with the set named by `--encode-set`, which defaults to the `Default`
set when the flag is absent. -/
theorem C7_dispatch (d s : Bool) (es : Option String) (line : String) :
    ((d = true ∨ s = true) →
      transform_line ⟨d, s, es⟩ line =
        (if s then
          match decodeStrictStr line with
          | some t => TransformResult.ok t
          | none => TransformResult.invalidUtf8
         else TransformResult.ok (decodeLossyStr line))) ∧
    (d = false → s = false →
      transform_line ⟨d, s, es⟩ line =
        (match namedSet (encodeSetValue es) with
         | some set => TransformResult.ok (encode set line)
         | none => TransformResult.unknownSet)) ∧
    (d = false → s = false → es = none →
      transform_line ⟨d, s, es⟩ line = TransformResult.ok (encode DEFAULT_ENCODE_SET line)) := by
  refine ⟨?_, ?_, ?_⟩
  · intro hds
    rcases hds with rfl | rfl
    · cases s <;> simp [transform_line]
    · simp [transform_line]
  · rintro rfl rfl
    simp [transform_line]
  · rintro rfl rfl rfl
    simp [transform_line, encodeSetValue, namedSet]

/-- C7 (witness): the dispatch facts at concrete flag values: `--decode`
alone runs the lossy decoder, and no flags with no `--encode-set` runs the
`Default` encoder. -/
theorem C7_witness :
    transform_line ⟨true, false, none⟩ "x" = TransformResult.ok (decodeLossyStr "x") ∧
    transform_line ⟨false, false, none⟩ "x" =
      TransformResult.ok (encode DEFAULT_ENCODE_SET "x") :=
  ⟨(C7_dispatch true false none "x").1 (Or.inl rfl),
    (C7_dispatch false false none "x").2.2 rfl rfl rfl⟩

/-- C8: the encoder walks the input's UTF-8 bytes one at a time; a byte the
set contains becomes `%` followed by exactly two uppercase hex digits whose
value is the byte; any other byte is emitted unchanged; and encoding is
total — in encode mode `transform_line` always returns `ok` for every
recognized set name. -/
theorem C8_encoder (set : Nat → Bool) (s : String) (b : Nat) (bs : List Nat) :
    percentEncode set [] = [] ∧
    percentEncode set (b :: bs) = percentEncodeByte set b ++ percentEncode set bs ∧
    (set b = true → b < 256 →
      percentEncodeByte set b = [37, hexUpperDigit (b / 16), hexUpperDigit (b % 16)] ∧
      isUpperHexDigit (hexUpperDigit (b / 16)) = true ∧
      isUpperHexDigit (hexUpperDigit (b % 16)) = true ∧
      hexDigitVal (hexUpperDigit (b / 16)) = some (b / 16) ∧
      hexDigitVal (hexUpperDigit (b % 16)) = some (b % 16)) ∧
    (set b = false → percentEncodeByte set b = [b]) ∧
    encode set s = ⟨(percentEncode set (utf8Bytes s.data)).map Char.ofNat⟩ ∧
    (∀ name set0, namedSet name = some set0 →
      transform_line ⟨false, false, some name⟩ s = TransformResult.ok (encode set0 s)) := by
  refine ⟨rfl, rfl, ?_, ?_, rfl, ?_⟩
  · intro hset h256
    refine ⟨by rw [percentEncodeByte, if_pos hset], ?_, ?_, ?_, ?_⟩
    · exact isUpperHexDigit_hexUpperDigit _ (by omega)
    · exact isUpperHexDigit_hexUpperDigit _ (by omega)
    · exact hexDigitVal_hexUpperDigit _ (by omega)
    · exact hexDigitVal_hexUpperDigit _ (by omega)
  · intro hset
    rw [percentEncodeByte, if_neg (by rw [hset]; exact Bool.false_ne_true)]
  · intro name set0 hname
    unfold transform_line
    simp only [Bool.or_false, if_false]
    show (match namedSet (encodeSetValue (some name)) with
      | some set1 => TransformResult.ok (encode set1 s)
      | none => TransformResult.unknownSet) = TransformResult.ok (encode set0 s)
    rw [show encodeSetValue (some name) = name from rfl, hname]

/-- C8 (witness): the escaped-byte facts at byte 32 (space) under the
`Default` set. -/
theorem C8_witness :
    percentEncodeByte DEFAULT_ENCODE_SET 32 =
      [37, hexUpperDigit (32 / 16), hexUpperDigit (32 % 16)] :=
  ((C8_encoder DEFAULT_ENCODE_SET "a" 32 []).2.2.1 (by decide) (by decide)).1

/-- C9: lossy-decoding a text that contains no `%` character returns it
unchanged. -/
theorem C9_decode_idempotent (s : String) (h : ∀ c ∈ s.data, c ≠ '%') :
    decodeLossyStr s = s := by
  show (⟨(utf8DecodeLossyAux (percentDecode (utf8Bytes s.data))).map Char.ofNat⟩ :
    String) = s
  rw [percentDecode_no37 _ (utf8Bytes_no37 s.data h), utf8DecodeLossyAux_utf8Bytes,
    map_ofNat_toNat]

/-- C9 (witness): the idempotence at the concrete percent-free input
`abc`. -/
theorem C9_witness : decodeLossyStr "abc" = "abc" :=
  C9_decode_idempotent "abc" (by decide)

/-- C10: a line read from standard input is transformed after removal of
all trailing whitespace (spaces, tabs, carriage returns, and every other
Unicode whitespace character), while the positional `INPUT` argument is
transformed exactly as given. -/
theorem C10_trim_stdin (args : Args) (s t : String)
    (h : ∀ c ∈ t.data, isRustWhitespace c = true) :
    processStdinLine args (s ++ t) = processStdinLine args s ∧
    processInputArg args s = transform_line args s := by
  constructor
  · unfold processStdinLine
    rw [trimEnd_append_ws s t h]
  · rfl

/-- C10 (witness): appending the whitespace tail `" \t\r"` to a stdin line
does not change the transform's result. -/
theorem C10_witness :
    processStdinLine ⟨false, false, none⟩ ("ab" ++ " \t\x0d") =
      processStdinLine ⟨false, false, none⟩ "ab" :=
  (C10_trim_stdin ⟨false, false, none⟩ "ab" " \t\x0d" (by decide)).1

end Urlencode

